import Mathlib

/-!
Shallow embedding of the koa-template request-validation core
(`src/app/util/BaseValidator.js` and `src/app/util/helper.js`) and proofs
about it.  JavaScript objects are modelled as finite association trees,
JS values as an inductive `Value`, and the external `validator.js`
predicate library as an abstract `Catalog` parameter.
-/

set_option autoImplicit false
set_option maxRecDepth 8000

namespace KoaValidator

/-- JavaScript runtime values occurring in the validator: `null`/`undefined`
(collapsed into one constructor, since the source only observes them through
`== null` and falsiness), strings, integers (results of `parseInt`), floats
(results of `parseFloat`, modelled as rationals), booleans, and `NaN`. -/
inductive Value where
  | vNull
  | vStr (s : String)
  | vInt (n : Int)
  | vFloat (q : Rat)
  | vBool (b : Bool)
  | vNaN
deriving DecidableEq, Repr

/-- JavaScript truthiness: `null`, `undefined`, `""`, `0`, `false` and `NaN`
are falsy, everything else is truthy. -/
def truthy : Value → Bool
  | .vNull => false
  | .vStr s => decide (s ≠ "")
  | .vInt n => decide (n ≠ 0)
  | .vFloat q => decide (q ≠ 0)
  | .vBool b => b
  | .vNaN => false

/-- JavaScript string coercion `value + ''` as used in `Rule.validate`.
Float formatting is simplified (the default `Rat` rendering); no theorem
below depends on the string form of a float. -/
def jsToString : Value → String
  | .vNull => "null"
  | .vStr s => s
  | .vInt n => toString n
  | .vFloat q => toString q
  | .vBool b => if b then "true" else "false"
  | .vNaN => "NaN"

/-- Numeric value of a list of decimal digit characters. -/
def natOfDigits (ds : List Char) : Nat :=
  ds.foldl (fun a c => a * 10 + (c.toNat - '0'.toNat)) 0

/-- JavaScript `parseInt` on a string, restricted to the decimal fragment:
skip leading whitespace, optional sign, then the longest digit prefix;
`NaN` when there is no digit.  (Hex/exponent forms are outside the
modelled fragment; no claim depends on them.) -/
def jsParseIntStr (s : String) : Value :=
  let cs := s.toList.dropWhile (fun c => c.isWhitespace)
  let sign : Bool := match cs with
    | '-' :: _ => true
    | _ => false
  let cs' := match cs with
    | '-' :: r => r
    | '+' :: r => r
    | _ => cs
  let ds := cs'.takeWhile (fun c => c.isDigit)
  if ds.isEmpty then .vNaN
  else .vInt ((if sign then (-1 : Int) else 1) * (natOfDigits ds : Int))

/-- JavaScript `parseFloat` on a string, restricted to plain decimal
notation `[sign] digits [. digits]`; `NaN` when no digit is present. -/
def jsParseFloatStr (s : String) : Value :=
  let cs := s.toList.dropWhile (fun c => c.isWhitespace)
  let sign : Bool := match cs with
    | '-' :: _ => true
    | _ => false
  let cs' := match cs with
    | '-' :: r => r
    | '+' :: r => r
    | _ => cs
  let ds := cs'.takeWhile (fun c => c.isDigit)
  let rest := cs'.dropWhile (fun c => c.isDigit)
  let fs := match rest with
    | '.' :: r => r.takeWhile (fun c => c.isDigit)
    | _ => []
  if ds.isEmpty && fs.isEmpty then .vNaN
  else
    let ip : Rat := (natOfDigits ds : Int)
    let fp : Rat := (natOfDigits fs : Int) / ((10 : Rat) ^ fs.length)
    .vFloat ((if sign then (-1 : Rat) else 1) * (ip + fp))

/-- JavaScript `parseInt(value)`: the argument is coerced to a string first. -/
def jsParseInt (v : Value) : Value := jsParseIntStr (jsToString v)

/-- JavaScript `parseFloat(value)`: the argument is coerced to a string first. -/
def jsParseFloat (v : Value) : Value := jsParseFloatStr (jsToString v)

/-- A JavaScript object tree: either a primitive value or an object whose
fields are an ordered association list (insertion order, as `Reflect.ownKeys`
and object literals preserve it).  Used for the `params` / `paramsChecked`
parameter bags. -/
inductive JTree where
  | leaf (v : Value)
  | node (fields : List (String × JTree))
deriving Repr

mutual

/-- Lodash `_.get(obj, path)` on the modelled object trees: follow the path
segment by segment; `none` stands for `undefined` (or the `null` default the
source passes to `_.get`). -/
def jget : JTree → List String → Option JTree
  | t, [] => some t
  | .leaf _, _ :: _ => none
  | .node fs, k :: ks => jgetFields fs k ks

/-- Field lookup step of `jget`: find the first field named `k` and continue. -/
def jgetFields : List (String × JTree) → String → List String → Option JTree
  | [], _, _ => none
  | (k', t) :: rest, k, ks => if k' = k then jget t ks else jgetFields rest k ks

end

/-- Build the subtree `_.set` creates for the missing suffix of a path. -/
def jbuild : List String → Value → JTree
  | [], v => .leaf v
  | k :: ks, v => .node [(k, jbuild ks v)]

mutual

/-- Lodash `_.set(obj, path, value)` on the modelled object trees: walk the
path and assign the value at its last segment, creating nested objects for
missing segments (new fields are appended, as JS property insertion does)
and replacing an intermediate primitive by a fresh object; the empty path
and a primitive root leave the tree unchanged (silent no-ops in JS). -/
def jset : JTree → List String → Value → JTree
  | t, [], _ => t
  | .leaf c, _ :: _, _ => .leaf c
  | .node fs, k :: ks, v => .node (jsetFields fs k ks v)

/-- Field update step of `jset`: assign or descend at the first field named
`k`, or append a freshly built chain when the field is absent. -/
def jsetFields :
    List (String × JTree) → String → List String → Value → List (String × JTree)
  | [], k, ks, v => [(k, jbuild ks v)]
  | (k', t) :: rest, k, ks, v =>
    if k' = k then
      match ks, t with
      | [], _ => (k', .leaf v) :: rest
      | _ :: _, .node fs' => (k', jset (.node fs') ks v) :: rest
      | _ :: _, .leaf _ => (k', jbuild ks v) :: rest
    else (k', t) :: jsetFields rest k ks v

end

/-- Read a primitive at a path: the `Value` under `jget`, with `undefined`
mapped to `vNull`.  On the flat parameter bags built by `mkBag` below, paths
of length two never land on a nested object, so collapsing the object case
to `vNull` is unobservable in this development. -/
def jleaf (t : JTree) (p : List String) : Value :=
  match jget t p with
  | some (.leaf v) => v
  | _ => .vNull

/-- A flat source mapping (field name to primitive value) as an object tree. -/
def fieldsTree (l : List (String × Value)) : JTree :=
  .node (l.map (fun p => (p.1, .leaf p.2)))

/-- The raw parameter bag `_assembleAllParams` builds from the koa context:
an object with the four sources in the literal's order `body`, `query`,
`path`, `header`. -/
def mkBag (query body path header : List (String × Value)) : JTree :=
  .node [("body", fieldsTree body), ("query", fieldsTree query),
         ("path", fieldsTree path), ("header", fieldsTree header)]

/-- First value bound to `k` in a flat source, `vNull` (undefined) if absent. -/
def fieldVal (l : List (String × Value)) (k : String) : Value :=
  match l with
  | [] => .vNull
  | (k', v) :: rest => if k' = k then v else fieldVal rest k

/-- The external predicate library (`validator.js`), treated as a black box:
a predicate name applied to the stringified value and the rule's options,
`none` when the library has no function of that name (in which case the
source call `validator[this.name](...)` throws a `TypeError`). -/
def Catalog := String → String → List Value → Option Bool

/-- The `Rule` class: a predicate name, an error message (`""` models a
missing/empty message, both falsy) and the trailing constructor options. -/
structure Rule where
  name : String
  message : String
  options : List Value
deriving DecidableEq, Repr

/-- The `RuleResult` class: pass flag and message. -/
structure RuleResult where
  pass : Bool
  message : String
deriving DecidableEq, Repr

/-- `Rule.prototype.validate`: `isOptional` always passes; otherwise look the
name up in the catalog and apply it to the stringified value and the options.
An unknown name is a thrown `TypeError`, modelled as the `Except` error. -/
def Rule.validate (cat : Catalog) (r : Rule) (value : Value) :
    Except String RuleResult :=
  if r.name = "isOptional" then .ok ⟨true, ""⟩
  else
    match cat r.name (jsToString value) r.options with
    | none => .error ("validator[" ++ r.name ++ "] is not a function")
    | some true => .ok ⟨true, ""⟩
    | some false => .ok ⟨false, if r.message = "" then "参数错误" else r.message⟩

/-- An element of a declared rule-set array: either a `Rule` instance or a
non-`Rule` JS value (such as the string the spec's authoring-bug example
uses), which has no `name` or `validate` of its own. -/
inductive ArrElem where
  | rule (r : Rule)
  | notRule
deriving DecidableEq, Repr

/-- Whether an array element is a `Rule` instance (`v instanceof Rule`). -/
def ArrElem.isRule : ArrElem → Bool
  | .rule _ => true
  | .notRule => false

/-- Reading `.name` on an array element and comparing with a string: a
non-`Rule` value's `name` is `undefined`, which equals no string. -/
def ArrElem.isNamed (e : ArrElem) (s : String) : Bool :=
  match e with
  | .rule r => r.name = s
  | .notRule => false

/-- Calling `.validate` on an array element: a non-`Rule` value has no
`validate` method, so the call throws a `TypeError`. -/
def ArrElem.validateE (cat : Catalog) (e : ArrElem) (value : Value) :
    Except String RuleResult :=
  match e with
  | .rule r => r.validate cat value
  | .notRule => .error "rule.validate is not a function"

/-- The `RuleFieldResult` class.  Its `message` is a plain string in the
required-field branch and an array of strings in the collected-failures
branch; both are only ever observed through JS string coercion, where a
single string and a one-element array render identically, so it is modelled
uniformly as a list joined with `","` at the use site. -/
structure RuleFieldResult where
  pass : Bool
  message : List String
  legalValue : Value
deriving DecidableEq, Repr

/-- The `RuleField` class: the declared rule array, the owning validator's
constructor name (`this.target.constructor.name`) and the field name. -/
structure RuleField where
  rules : List ArrElem
  targetName : String
  field : String

/-- `RuleField.prototype._allowEmpty`: is some rule named `isOptional`? -/
def RuleField.allowEmpty (rules : List ArrElem) : Bool :=
  rules.any (fun e => e.isNamed "isOptional")

/-- `RuleField.prototype._hasDefault`: the first option of the first
`isOptional` rule; `vNull` models `undefined` when there is no such rule or
it has no option. -/
def RuleField.hasDefault : List ArrElem → Value
  | [] => .vNull
  | e :: rest =>
    match e with
    | .rule r => if r.name = "isOptional" then r.options.headD .vNull
                 else RuleField.hasDefault rest
    | .notRule => RuleField.hasDefault rest

/-- `RuleField.prototype._convert`: walk the rules in declaration order and
apply the coercion of the first rule named `isInt`, `isFloat` or `isBoolean`;
pass the value through unchanged when none is present. -/
def RuleField.convert (rules : List ArrElem) (value : Value) : Value :=
  match rules with
  | [] => value
  | e :: rest =>
    if e.isNamed "isInt" then jsParseInt value
    else if e.isNamed "isFloat" then jsParseFloat value
    else if e.isNamed "isBoolean" then .vBool (truthy value)
    else RuleField.convert rest value

/-- The failure-message collection loop of `RuleField.prototype.validate`:
run every rule against the value, in order, keeping the messages of the
failing ones; a thrown `TypeError` (unknown predicate or non-`Rule` element)
escapes as the `Except` error. -/
def RuleField.collectMessages (cat : Catalog) :
    List ArrElem → Value → Except String (List String)
  | [], _ => .ok []
  | e :: rest, v => do
    let r ← e.validateE cat v
    let ms ← RuleField.collectMessages cat rest v
    pure (if r.pass then ms else r.message :: ms)

/-- `RuleField.prototype.validate`: an absent (`null`/`undefined`) value
either resolves to the declared default (throwing the authoring `Error` when
the default is falsy) or fails as required; a present value runs every rule,
failing with all collected messages or succeeding with the coerced value. -/
def RuleField.validate (cat : Catalog) (rf : RuleField) (value : Value) :
    Except String RuleFieldResult :=
  if value = .vNull then
    if RuleField.allowEmpty rf.rules then
      let d := RuleField.hasDefault rf.rules
      if truthy d then .ok ⟨true, [], d⟩
      else .error (rf.targetName ++ "校验器中" ++ rf.field ++
        "字段没有对可选参数设置默认的参数值！")
    else .ok ⟨false, ["字段是必填参数"], .vNull⟩
  else do
    let msgs ← RuleField.collectMessages cat rf.rules value
    if msgs.isEmpty then pure ⟨true, [], RuleField.convert rf.rules value⟩
    else pure ⟨false, msgs, .vNull⟩

/-- A custom check member (`validateXxx(params)`): receives the raw parameter
bag; a thrown error is modelled as `Except.error` carrying `error.message`
(`""` when the error has no usable message). -/
def CustomCheck := JTree → Except String Unit

/-- A declared instance member of a validator object: a rule-set array, a
function (custom check or inherited method), or any other JS value. -/
inductive JsMember where
  | arr (elems : List ArrElem)
  | func (f : CustomCheck)
  | other

/-- One level of a JS object's prototype chain: its own keys with their
values, in `Reflect.ownKeys` (insertion) order. -/
def Level := List (String × JsMember)

/-- Property resolution `this[key]` along the prototype chain: the value at
the level nearest the instance that declares `key`, `none` for `undefined`. -/
def resolveMember : List Level → String → Option JsMember
  | [], _ => none
  | lvl :: rest, key =>
    match lvl.lookup key with
    | some m => some m
    | none => resolveMember rest key

/-- Character class `\w` of the member-name regex: `[A-Za-z0-9_]`. -/
def isWordChar (c : Char) : Bool :=
  (('a' ≤ c && c ≤ 'z') || ('A' ≤ c && c ≤ 'Z') || c.isDigit || c = '_')

/-- Match of `validate([A-Z])\w+` at the head of a character list. -/
def validateMatchHere : List Char → Bool
  | 'v' :: 'a' :: 'l' :: 'i' :: 'd' :: 'a' :: 't' :: 'e' :: c :: d :: _ =>
    ('A' ≤ c && c ≤ 'Z') && isWordChar d
  | _ => false

/-- The unanchored regex test `/validate([A-Z])\w+/.test(key)` of
`_findMembersFilter`: some position in `key` starts a match. -/
def jsTestValidate (key : String) : Bool :=
  key.toList.tails.any validateMatchHere

/-- `BaseValidator.prototype._findMembersFilter`, with the member value
`this[key]` resolved by the caller: keep keys matching the custom-check name
pattern; keep array-valued keys after checking every element is a `Rule`
(throwing the authoring `Error` at the first non-`Rule` element, with a
message naming the validator's constructor and the field); drop the rest. -/
def findMembersFilter (vname key : String) (m : Option JsMember) :
    Except String Bool :=
  if jsTestValidate key then .ok true
  else
    match m with
    | some (.arr elems) =>
      if elems.all ArrElem.isRule then .ok true
      else .error (vname ++ "校验器中" ++ key ++ "字段的验证数组必须全部为Rule类型")
    | _ => .ok false

/-- The `keys.filter(...)` step of `findMembers._find`: apply the (possibly
throwing) filter to a level's own keys in order, keeping the accepted ones. -/
def filterKeys (f : String → Except String Bool) :
    List String → Except String (List String)
  | [] => .ok []
  | k :: ks => do
    let b ← f k
    let rest ← filterKeys f ks
    pure (if b then k :: rest else rest)

/-- The recursion `_find` of `findMembers` in `helper.js`, on the prototype
chain viewed as a list of levels ending with the root object whose
`__proto__` is `null`: that root returns `[]` without being scanned; every
other level contributes its filtered own keys followed by its ancestors'. -/
def findRec (f : String → Except String Bool) :
    List Level → Except String (List String)
  | [] => .ok []
  | [_] => .ok []
  | lvl :: rest => do
    let keys ← filterKeys f (lvl.map Prod.fst)
    let tail ← findRec f rest
    pure (keys ++ tail)

/-- `findMembers(this, { filter: this._findMembersFilter.bind(this) })` as
called by `validate()`: the filter reads `this[key]`, i.e. the member
resolved through the whole chain, whichever level the key came from. -/
def findValidatorMembers (vname : String) (levels : List Level) :
    Except String (List String) :=
  findRec (fun k => findMembersFilter vname k (resolveMember levels k)) levels

/-- Result of `_findParam`: the located raw value and the path it was found
at (`[]` with a `null` value when no source has a truthy entry). -/
structure FoundParam where
  value : Value
  path : List String
deriving DecidableEq, Repr

/-- `BaseValidator.prototype._findParam`: probe `query`, `body`, `path`,
`header` in that order and return the first truthy value with its path. -/
def findParam (params : JTree) (key : String) : FoundParam :=
  let q := jleaf params ["query", key]
  if truthy q then ⟨q, ["query", key]⟩
  else
    let b := jleaf params ["body", key]
    if truthy b then ⟨b, ["body", key]⟩
    else
      let p := jleaf params ["path", key]
      if truthy p then ⟨p, ["path", key]⟩
      else
        let h := jleaf params ["header", key]
        if truthy h then ⟨h, ["header", key]⟩
        else ⟨.vNull, []⟩

/-- The state of a `BaseValidator` instance: its concrete constructor name,
its member declarations along the prototype chain (instance level first,
ending with the root object), and the two deep-copied parameter bags. -/
structure VState where
  name : String
  levels : List Level
  params : JTree
  paramsChecked : JTree
  memberKeys : List String

/-- Array stringification used by the template literal in `_check`: a JS
array renders as its elements joined with `","` (a plain string message is
the one-element case). -/
def joinMsgs (ms : List String) : String := String.intercalate "," ms

/-- Outcome of `_check` for one member: the `success`/`message` pair it
returns plus the `paramsChecked` bag after its `_.set` side effect. -/
structure CheckOut where
  success : Bool
  message : String
  paramsChecked : JTree

/-- `BaseValidator.prototype._check` on one discovered key: a function member
is invoked with the raw bag, its thrown error downgraded to a failure message
(`error.message || '参数错误'`); otherwise the key is treated as a rule-set
field: locate its raw value, run `RuleField`, and on pass write the legal
value at the found path or under `default.<key>`.  Field failures are
prefixed with `<key>：`; authoring errors escape as `Except.error`. -/
def BaseValidator.check (cat : Catalog) (st : VState) (key : String) :
    Except String CheckOut :=
  match resolveMember st.levels key with
  | some (.func f) =>
    match f st.params with
    | .ok _ => .ok ⟨true, "ok", st.paramsChecked⟩
    | .error emsg =>
      .ok ⟨false, if emsg = "" then "参数错误" else emsg, st.paramsChecked⟩
  | some (.arr elems) => do
    let pr := findParam st.params key
    let result ← RuleField.validate cat ⟨elems, st.name, key⟩ pr.value
    let pc :=
      if result.pass then
        if pr.path.isEmpty then
          jset st.paramsChecked ["default", key] result.legalValue
        else jset st.paramsChecked pr.path result.legalValue
      else st.paramsChecked
    if result.pass then .ok ⟨true, "ok", pc⟩
    else .ok ⟨false, key ++ "：" ++ joinMsgs result.message, pc⟩
  | _ => .error "rules is not iterable"

/-- The `success`/`message` projection of `_check`, which depends only on the
member declarations and the read-only raw bag, never on `paramsChecked`. -/
def checkSM (cat : Catalog) (name : String) (levels : List Level)
    (params : JTree) (key : String) : Except String (Bool × String) :=
  match resolveMember levels key with
  | some (.func f) =>
    match f params with
    | .ok _ => .ok (true, "ok")
    | .error emsg => .ok (false, if emsg = "" then "参数错误" else emsg)
  | some (.arr elems) => do
    let result ← RuleField.validate cat ⟨elems, name, key⟩ (findParam params key).value
    if result.pass then .ok (true, "ok")
    else .ok (false, key ++ "：" ++ joinMsgs result.message)
  | _ => .error "rules is not iterable"

/-- The member loop of `validate()`: check each discovered key in order,
pushing the message of every failing member and threading the
`paramsChecked` bag; an authoring error aborts the loop. -/
def runChecks (cat : Catalog) (st : VState) :
    List String → Except String (List String × JTree)
  | [] => .ok ([], st.paramsChecked)
  | k :: ks => do
    let out ← BaseValidator.check cat st k
    let (ms, pc) ← runChecks cat { st with paramsChecked := out.paramsChecked } ks
    pure ((if out.success then ms else out.message :: ms), pc)

/-- Outcome of a `validate()` call that did not hit an authoring error:
either the validator instance itself (with its final `paramsChecked` and
`memberKeys`) or the thrown `ParameterException(code, errorMessages)`. -/
inductive VOutcome where
  | ok (st : VState)
  | paramError (code : Nat) (msgs : List String)

/-- `BaseValidator.prototype.validate`: discover the member keys, check them
all, and either throw `ParameterException(10001, errorMessages)` when any
failed or return the instance. -/
def BaseValidator.validate (cat : Catalog) (st : VState) :
    Except String VOutcome := do
  let keys ← findValidatorMembers st.name st.levels
  let (msgs, pc) ← runChecks cat { st with memberKeys := keys } keys
  if msgs.isEmpty then
    .ok (.ok { st with memberKeys := keys, paramsChecked := pc })
  else .ok (.paramError 10001 msgs)

/-- Truthiness of a `_.get` result: `undefined`/`null` are falsy, an object
is truthy, a primitive follows `truthy`. -/
def jtruthyOpt : Option JTree → Bool
  | none => false
  | some (.node _) => true
  | some (.leaf v) => truthy v

/-- Splitting of a character list at `'.'` occurrences. -/
def splitCharsOnDot : List Char → List (List Char)
  | [] => [[]]
  | c :: rest =>
    if c = '.' then [] :: splitCharsOnDot rest
    else
      match splitCharsOnDot rest with
      | [] => [[c]]
      | g :: gs => (c :: g) :: gs

/-- JavaScript `path.split('.')`: the dot-separated segments of a path
(`[""]` for the empty string, exactly as in JS). -/
def splitDots (s : String) : List String :=
  (splitCharsOnDot s.toList).map (fun cs => String.mk cs)

/-- `BaseValidator.prototype.get`: with `parsed` look the dotted path up in
`paramsChecked` and, when the result is falsy or absent, fall back to
`paramsChecked.default.<last segment>`; without `parsed` read the raw
`params` with no fallback.  `none` models `undefined`/`null`. -/
def BaseValidator.get (st : VState) (path : String) (parsed : Bool := true) :
    Option JTree :=
  if parsed then
    let value := jget st.paramsChecked (splitDots path)
    if jtruthyOpt value then value
    else jget st.paramsChecked ["default", (splitDots path).getLastD ""]
  else jget st.params (splitDots path)

/-- A catalog with no predicate at all; used to express that a computation
never invokes any predicate (it would throw on the first lookup). -/
def emptyCatalog : Catalog := fun _ _ _ => none

/-- Character list shape `[sign] digit+`, the integer-string test. -/
def intShape (cs : List Char) : Bool :=
  let cs' := match cs with
    | '-' :: r => r
    | '+' :: r => r
    | _ => cs
  (!cs'.isEmpty) && cs'.all (fun c => c.isDigit)

/-- Character list shape `[sign] digit+ [. digit*]`, the float-string test. -/
def floatShape (cs : List Char) : Bool :=
  let cs' := match cs with
    | '-' :: r => r
    | '+' :: r => r
    | _ => cs
  let ds := cs'.takeWhile (fun c => c.isDigit)
  let rest := cs'.dropWhile (fun c => c.isDigit)
  (!ds.isEmpty) &&
    (match rest with
     | [] => true
     | '.' :: fs => fs.all (fun c => c.isDigit)
     | _ => false)

/-- Modelled from the spec: the external Predicate Catalog (`validator.js`),
restricted to the predicates the spec names, with simplified string
semantics — `isInt`: optional sign followed by one or more digits;
`isFloat`: an integer string, optionally followed by a point and digits;
`isBoolean`: one of `"true"`, `"false"`, `"1"`, `"0"` (the library's default
mode); `isEmail`: contains `"@"`; `isLength`: length bounds ignored (always
true).  Other names are absent from the catalog. -/
def specCatalog : Catalog := fun name value _opts =>
  if name = "isInt" then some (intShape value.toList)
  else if name = "isBoolean" then
    some (value = "true" || value = "false" || value = "1" || value = "0")
  else if name = "isFloat" then some (floatShape value.toList)
  else if name = "isEmail" then some (value.toList.any (fun c => c = '@'))
  else if name = "isLength" then some true
  else none

/-- Success test on an `Except` result. -/
def isOkB {ε α : Type} : Except ε α → Bool
  | .ok _ => true
  | .error _ => false

/-- The failure messages `validate()` collects, expressed per member: the
message of every member whose `_check` reports failure, in discovery order. -/
def collectFails (cat : Catalog) (name : String) (levels : List Level)
    (params : JTree) (keys : List String) : List String :=
  keys.filterMap (fun k =>
    match checkSM cat name levels params k with
    | .ok (false, m) => some m
    | _ => none)

/-- Whether a rule-set element bears one of the three coercion names. -/
def isCoercion (e : ArrElem) : Bool :=
  e.isNamed "isInt" || e.isNamed "isFloat" || e.isNamed "isBoolean"

/-- The coercion the first matching rule selects in `_convert`. -/
def coerce (e : ArrElem) (v : Value) : Value :=
  if e.isNamed "isInt" then jsParseInt v
  else if e.isNamed "isFloat" then jsParseFloat v
  else .vBool (truthy v)

/-- Whether a thrown-or-kept filter result is a kept key. -/
def okTrue : Except String Bool → Bool
  | .ok true => true
  | _ => false

/-- An empty raw parameter bag (no field in any source). -/
def emptyBag : JTree := mkBag [] [] [] []

/-- The `age` rule set: `isInt` followed by `isOptional` with default `d`. -/
def ageRules (d : Value) : List ArrElem :=
  [.rule ⟨"isInt", "age必须是整数", []⟩, .rule ⟨"isOptional", "", [d]⟩]

/-- A single-field validator declaring `age` with `isInt` and `isOptional`
whose declared default is `d`: the instance level and the root object. -/
def ageLevels (d : Value) : List Level :=
  [[("age", .arr (ageRules d))], []]

/-- The `age` validator's state over a raw bag (both copies identical, as
after `_initParams`). -/
def ageState (d : Value) (bag : JTree) : VState :=
  ⟨"AgeValidator", ageLevels d, bag, bag, []⟩

/-- The checked bag after validating an absent `age`: the synthetic
`default` bucket holds the declared default. -/
def agePC (d : Value) : JTree := jset emptyBag ["default", "age"] d

/-- A raw bag carrying `age = v` in the query string. -/
def agePresentBag (v : Value) : JTree := mkBag [("age", v)] [] [] []

/-- The checked bag after validating a present `age`: `query.age` holds the
coerced integer. -/
def agePresentPC (v : Value) : JTree :=
  jset (agePresentBag v) ["query", "age"] (jsParseInt v)

/-- A register-style validator: an `email` rule set and a `nickname` rule
set on the instance, an inherited `validatePassword` custom check comparing
the two password fields of the body, and the root object. -/
def regLevels : List Level :=
  [[("email", .arr [.rule ⟨"isEmail", "电子邮箱不符合规范", []⟩]),
    ("nickname", .arr [.rule ⟨"isLength", "昵称不符合长度规范", []⟩])],
   [("validatePassword", .func (fun bag =>
      if jleaf bag ["body", "password1"] = jleaf bag ["body", "password2"]
      then .ok () else .error "两个密码不一致"))],
   []]

/-- A request for the register validator with a malformed email, matching
passwords absent from each other, and a valid nickname. -/
def regBag : JTree :=
  mkBag [("email", .vStr "bad")]
    [("password1", .vStr "aaaaaa"), ("password2", .vStr "bbbbbb"),
     ("nickname", .vStr "abcd")] [] []

/-- The register validator's state on `regBag`. -/
def regState : VState := ⟨"RegisterValidator", regLevels, regBag, regBag, []⟩

/-- A validator whose instance declares `age` as a plain `isInt` rule set,
receiving `age = "7"` in the query string. -/
def c4Bag : JTree := mkBag [("age", .vStr "7")] [] [] []

/-- State of the `c4Bag` validator. -/
def c4State : VState :=
  ⟨"V", [[("age", .arr [.rule ⟨"isInt", "", []⟩])], []], c4Bag, c4Bag, []⟩

/-- A validator whose only member is a custom check that always throws. -/
def c9State : VState :=
  ⟨"V", [[("validateFail", .func (fun _ => .error "两个密码不一致"))], []],
   emptyBag, emptyBag, []⟩

/-- A validator declaring a member named `validateFoo` whose value is a
non-empty array containing a non-`Rule` element. -/
def c8State : VState :=
  ⟨"V", [[("validateFoo", .arr [.notRule])], []], emptyBag, emptyBag, []⟩

/-- A validator declaring `email` as a non-empty array containing a
non-`Rule` element (the spec's authoring-bug example). -/
def c8BadState : VState :=
  ⟨"V", [[("email", .arr [.notRule])], []], emptyBag, emptyBag, []⟩

/-- Optional-valued twin of `fieldVal`, distinguishing an absent binding. -/
def fieldValOpt (l : List (String × Value)) (k : String) : Option Value :=
  match l with
  | [] => none
  | (k', v) :: rest => if k' = k then some v else fieldValOpt rest k

theorem fieldVal_eq_opt (l : List (String × Value)) (k : String) :
    fieldVal l k = (fieldValOpt l k).getD .vNull := by
  induction l with
  | nil => rfl
  | cons p rest ih =>
    obtain ⟨k', v⟩ := p
    by_cases hk : k' = k
    · simp [fieldVal, fieldValOpt, hk]
    · simpa [fieldVal, fieldValOpt, hk] using ih

theorem jget_fieldsTree (l : List (String × Value)) (k : String) :
    jget (fieldsTree l) [k] = (fieldValOpt l k).map JTree.leaf := by
  induction l with
  | nil => rfl
  | cons p rest ih =>
    obtain ⟨k', v⟩ := p
    by_cases hk : k' = k
    · simp [fieldsTree, jget, jgetFields, fieldValOpt, hk]
    · simpa [fieldsTree, jget, jgetFields, fieldValOpt, hk] using ih

theorem jleaf_fieldsTree (l : List (String × Value)) (k : String) :
    jleaf (fieldsTree l) [k] = fieldVal l k := by
  rw [jleaf, jget_fieldsTree, fieldVal_eq_opt]
  cases fieldValOpt l k <;> rfl

theorem jget_mkBag_query (q b p h : List (String × Value)) (k : String) :
    jget (mkBag q b p h) ["query", k] = jget (fieldsTree q) [k] := by
  simp [mkBag, jget, jgetFields]

theorem jget_mkBag_body (q b p h : List (String × Value)) (k : String) :
    jget (mkBag q b p h) ["body", k] = jget (fieldsTree b) [k] := by
  simp [mkBag, jget, jgetFields]

theorem jget_mkBag_path (q b p h : List (String × Value)) (k : String) :
    jget (mkBag q b p h) ["path", k] = jget (fieldsTree p) [k] := by
  simp [mkBag, jget, jgetFields]

theorem jget_mkBag_header (q b p h : List (String × Value)) (k : String) :
    jget (mkBag q b p h) ["header", k] = jget (fieldsTree h) [k] := by
  simp [mkBag, jget, jgetFields]

theorem jleaf_mkBag_query (q b p h : List (String × Value)) (k : String) :
    jleaf (mkBag q b p h) ["query", k] = fieldVal q k := by
  rw [jleaf, jget_mkBag_query, ← jleaf_fieldsTree, jleaf]

theorem jleaf_mkBag_body (q b p h : List (String × Value)) (k : String) :
    jleaf (mkBag q b p h) ["body", k] = fieldVal b k := by
  rw [jleaf, jget_mkBag_body, ← jleaf_fieldsTree, jleaf]

theorem jleaf_mkBag_path (q b p h : List (String × Value)) (k : String) :
    jleaf (mkBag q b p h) ["path", k] = fieldVal p k := by
  rw [jleaf, jget_mkBag_path, ← jleaf_fieldsTree, jleaf]

theorem jleaf_mkBag_header (q b p h : List (String × Value)) (k : String) :
    jleaf (mkBag q b p h) ["header", k] = fieldVal h k := by
  rw [jleaf, jget_mkBag_header, ← jleaf_fieldsTree, jleaf]

theorem findParam_mkBag (q b p h : List (String × Value)) (k : String) :
    findParam (mkBag q b p h) k =
      if truthy (fieldVal q k) then ⟨fieldVal q k, ["query", k]⟩
      else if truthy (fieldVal b k) then ⟨fieldVal b k, ["body", k]⟩
      else if truthy (fieldVal p k) then ⟨fieldVal p k, ["path", k]⟩
      else if truthy (fieldVal h k) then ⟨fieldVal h k, ["header", k]⟩
      else ⟨.vNull, []⟩ := by
  simp only [findParam, jleaf_mkBag_query, jleaf_mkBag_body, jleaf_mkBag_path,
    jleaf_mkBag_header]

theorem ruleField_null_required (cat : Catalog) (rules : List ArrElem) (n f : String)
    (h : RuleField.allowEmpty rules = false) :
    RuleField.validate cat ⟨rules, n, f⟩ .vNull =
      .ok ⟨false, ["字段是必填参数"], .vNull⟩ := by
  simp [RuleField.validate, h]

theorem ruleField_null_default (cat : Catalog) (rules : List ArrElem) (n f : String)
    (h1 : RuleField.allowEmpty rules = true)
    (h2 : truthy (RuleField.hasDefault rules) = true) :
    RuleField.validate cat ⟨rules, n, f⟩ .vNull =
      .ok ⟨true, [], RuleField.hasDefault rules⟩ := by
  simp [RuleField.validate, h1, h2]

theorem ruleField_null_catalog_free (cat cat' : Catalog) (rf : RuleField) :
    RuleField.validate cat rf .vNull = RuleField.validate cat' rf .vNull := rfl

/-- C2 (counterexample): a rule set declaring `isOptional` with the default
value `0` does declare a default, yet validating the absent value raises the
fatal authoring error, because the source tests the default with JS
falsiness (`!defaultValue`), not with presence. -/
theorem optional_falsy_default_counterexample :
    RuleField.hasDefault [ArrElem.rule ⟨"isOptional", "", [.vInt 0]⟩] = .vInt 0 ∧
    RuleField.validate emptyCatalog
      ⟨[.rule ⟨"isOptional", "", [.vInt 0]⟩], "RegisterValidator", "like"⟩ .vNull =
      .error "RegisterValidator校验器中like字段没有对可选参数设置默认的参数值！" :=
  ⟨rfl, rfl⟩

/-- C2 (amended): for every rule set containing an `isOptional` rule,
validating an absent (null) raw value succeeds with `legalValue` equal to the
declared default (the `isOptional` rule's first option) without invoking any
predicate from the catalog — the catalog is universally quantified and absent
from the result — whenever that default is truthy; and it is a fatal
authoring error (a thrown `Error`, not a user-facing validation failure)
exactly when the declared default is absent or falsy. -/
theorem optional_absent_uses_declared_default (cat : Catalog) (rules : List ArrElem)
    (n f : String) (hopt : RuleField.allowEmpty rules = true) :
    (truthy (RuleField.hasDefault rules) = true →
      RuleField.validate cat ⟨rules, n, f⟩ .vNull =
        .ok ⟨true, [], RuleField.hasDefault rules⟩) ∧
    (truthy (RuleField.hasDefault rules) = false →
      RuleField.validate cat ⟨rules, n, f⟩ .vNull =
        .error (n ++ "校验器中" ++ f ++ "字段没有对可选参数设置默认的参数值！")) := by
  constructor <;> intro h <;> simp [RuleField.validate, hopt, h]

/-- Witness for C2 (amended) at the `like` field of the register validator. -/
theorem optional_absent_uses_declared_default_witness :
    RuleField.validate emptyCatalog
      ⟨[.rule ⟨"isOptional", "", [.vStr "无"]⟩], "RegisterValidator", "like"⟩ .vNull =
      .ok ⟨true, [], .vStr "无"⟩ :=
  (optional_absent_uses_declared_default emptyCatalog
    [.rule ⟨"isOptional", "", [.vStr "无"]⟩] "RegisterValidator" "like" rfl).1 rfl

theorem okTrue_ok (b : Bool) : okTrue (.ok b) = b := by cases b <;> rfl

theorem convert_eq_find (rules : List ArrElem) (v : Value) :
    RuleField.convert rules v =
      match rules.find? isCoercion with
      | none => v
      | some e => coerce e v := by
  induction rules with
  | nil => rfl
  | cons e rest ih =>
    by_cases h1 : e.isNamed "isInt" = true
    · simp [RuleField.convert, List.find?, isCoercion, coerce, h1]
    · by_cases h2 : e.isNamed "isFloat" = true
      · simp [RuleField.convert, List.find?, isCoercion, coerce, h1, h2]
      · by_cases h3 : e.isNamed "isBoolean" = true
        · simp [RuleField.convert, List.find?, isCoercion, coerce, h1, h2, h3]
        · simp only [Bool.not_eq_true] at h1 h2 h3
          simp [RuleField.convert, List.find?, isCoercion, h1, h2, h3, ih]

/-- C3 (counterexample): the rule set `[isBoolean, isInt]` contains both a
boolean and an integer coercion marker, the value `"1"` passes both
predicates of the catalog, and yet the legal value is the boolean `true`,
not the integer `1` that integer-coercion precedence would give. -/
theorem coercion_precedence_counterexample :
    RuleField.validate specCatalog
      ⟨[.rule ⟨"isBoolean", "", []⟩, .rule ⟨"isInt", "", []⟩], "V", "f"⟩ (.vStr "1") =
      .ok ⟨true, [], .vBool true⟩ ∧
    jsParseInt (.vStr "1") = .vInt 1 ∧ Value.vBool true ≠ Value.vInt 1 :=
  ⟨rfl, rfl, by decide⟩

/-- C3 (amended): for every present value that passes every rule in a
field's rule set, the returned legal value is coerced exactly once, by the
first coercion-bearing rule (`isInt`, `isFloat` or `isBoolean`) in the rule
set's declaration order — not by a fixed int-over-float-over-boolean
precedence — and with no such rule the raw value passes through unchanged. -/
theorem legalValue_uses_first_coercion_rule (cat : Catalog) (rules : List ArrElem)
    (n f : String) (v : Value) (hv : v ≠ .vNull)
    (hpass : RuleField.collectMessages cat rules v = .ok []) :
    RuleField.validate cat ⟨rules, n, f⟩ v =
      .ok ⟨true, [], RuleField.convert rules v⟩ ∧
    RuleField.convert rules v =
      (match rules.find? isCoercion with
       | none => v
       | some e => coerce e v) := by
  refine ⟨?_, convert_eq_find rules v⟩
  simp [RuleField.validate, hv, hpass, Bind.bind, Except.bind, Pure.pure, Except.pure]

/-- Witness for C3 (amended): `isInt` declared before `isFloat` coerces the
passing value `"3"` with `parseInt`. -/
theorem legalValue_uses_first_coercion_rule_witness :
    RuleField.validate specCatalog
      ⟨[.rule ⟨"isInt", "", []⟩, .rule ⟨"isFloat", "", []⟩], "V", "f"⟩ (.vStr "3") =
      .ok ⟨true, [], .vInt 3⟩ := by
  have h := (legalValue_uses_first_coercion_rule specCatalog
    [.rule ⟨"isInt", "", []⟩, .rule ⟨"isFloat", "", []⟩] "V" "f" (.vStr "3")
    (by decide) (by rfl)).1
  rw [h]
  simp only [Except.ok.injEq]
  decide

/-- C6: for every rule set without an `isOptional` rule, validating an
absent (null) raw value fails with the required-field message, and no
predicate from the catalog is invoked on that call (the catalog is
universally quantified and absent from the result). -/
theorem required_failure_when_not_optional (cat : Catalog) (rules : List ArrElem)
    (n f : String) (h : RuleField.allowEmpty rules = false) :
    RuleField.validate cat ⟨rules, n, f⟩ .vNull =
      .ok ⟨false, ["字段是必填参数"], .vNull⟩ := by
  simp [RuleField.validate, h]

/-- Witness for C6 at the register validator's `email` rule set. -/
theorem required_failure_when_not_optional_witness :
    RuleField.validate emptyCatalog
      ⟨[.rule ⟨"isEmail", "电子邮箱不符合规范", []⟩], "RegisterValidator", "email"⟩
      .vNull = .ok ⟨false, ["字段是必填参数"], .vNull⟩ :=
  required_failure_when_not_optional emptyCatalog
    [.rule ⟨"isEmail", "电子邮箱不符合规范", []⟩] "RegisterValidator" "email" rfl

/-- C9: a custom-check member's thrown failure is caught and converted to a
plain message (its own message when non-empty, else the generic fallback),
`_check` reports it as an ordinary unsuccessful result rather than
propagating the error, and a succeeding custom check reports success. -/
theorem custom_check_error_downgraded (cat : Catalog) (st : VState) (key : String)
    (f : CustomCheck) (hm : resolveMember st.levels key = some (.func f)) :
    isOkB (BaseValidator.check cat st key) = true ∧
    (∀ m, f st.params = .error m →
      BaseValidator.check cat st key =
        .ok ⟨false, if m = "" then "参数错误" else m, st.paramsChecked⟩) ∧
    (f st.params = .ok () →
      BaseValidator.check cat st key = .ok ⟨true, "ok", st.paramsChecked⟩) := by
  refine ⟨?_, ?_, ?_⟩
  · cases hf : f st.params <;> simp [BaseValidator.check, hm, hf, isOkB]
  · intro m hf
    simp [BaseValidator.check, hm, hf]
  · intro hf
    simp [BaseValidator.check, hm, hf]

/-- Witness for C9: the always-throwing custom check of `c9State`. -/
theorem custom_check_error_downgraded_witness :
    BaseValidator.check emptyCatalog c9State "validateFail" =
      .ok ⟨false, "两个密码不一致", c9State.paramsChecked⟩ :=
  (custom_check_error_downgraded emptyCatalog c9State "validateFail"
    (fun _ => .error "两个密码不一致") rfl).2.1 "两个密码不一致" rfl

theorem filterKeys_ok (f : String → Except String Bool) :
    ∀ (ks out : List String), filterKeys f ks = .ok out →
      out = ks.filter (fun k => okTrue (f k)) := by
  intro ks
  induction ks with
  | nil =>
    intro out h
    simp only [filterKeys] at h
    cases h
    rfl
  | cons k ks ih =>
    intro out h
    simp only [filterKeys] at h
    cases hb : f k with
    | error e => rw [hb] at h; simp [Bind.bind, Except.bind] at h
    | ok b =>
      rw [hb] at h
      cases hr : filterKeys f ks with
      | error e => rw [hr] at h; simp [Bind.bind, Except.bind] at h
      | ok rest =>
        rw [hr] at h
        simp only [Bind.bind, Except.bind, Pure.pure, Except.pure, Except.ok.injEq] at h
        have hrest := ih rest hr
        cases b <;>
          simp [← h, List.filter_cons, okTrue_ok, hb, hrest]

theorem findRec_ok (f : String → Except String Bool) :
    ∀ (levels : List Level) (out : List String), findRec f levels = .ok out →
      out = (levels.dropLast.map
        (fun lvl => (lvl.map Prod.fst).filter (fun k => okTrue (f k)))).flatten := by
  intro levels
  induction levels with
  | nil =>
    intro out h
    simp only [findRec] at h
    cases h
    rfl
  | cons l1 rest ih =>
    intro out h
    cases rest with
    | nil =>
      simp only [findRec] at h
      cases h
      rfl
    | cons l2 rest' =>
      simp only [findRec] at h
      cases hk : filterKeys f (l1.map Prod.fst) with
      | error e => rw [hk] at h; simp [Bind.bind, Except.bind] at h
      | ok keys =>
        rw [hk] at h
        cases ht : findRec f (l2 :: rest') with
        | error e => rw [ht] at h; simp [Bind.bind, Except.bind] at h
        | ok tail =>
          rw [ht] at h
          simp only [Bind.bind, Except.bind, Pure.pure, Except.pure,
            Except.ok.injEq] at h
          have h1 := filterKeys_ok f (l1.map Prod.fst) keys hk
          have h2 := ih tail ht
          simp [← h, h1, h2, List.dropLast]

/-- C7 (counterexample): a name kept by the filter at two levels of the
chain appears twice in the discovered sequence — `_find` concatenates the
levels' filtered keys with no de-duplication. -/
theorem member_discovery_duplicates_counterexample :
    findValidatorMembers "V"
      [[("validateFoo", JsMember.func (fun _ => .ok ()))],
       [("validateFoo", JsMember.func (fun _ => .ok ()))], []] =
      .ok ["validateFoo", "validateFoo"] ∧
    ¬ List.Nodup ["validateFoo", "validateFoo"] :=
  ⟨rfl, by decide⟩

/-- C7 (amended): member discovery walks the instance's own declared members
and then its full prototype chain (excluding the root object with no further
ancestor, i.e. the last level), keeping each level's filtered keys in
declaration order, own members before inherited ones, and concatenating the
levels without de-duplication, so a name passing the filter at several
levels appears once per level; the result is a function of the definition,
hence deterministic across calls. -/
theorem member_discovery_concatenates_levels (vname : String) (levels : List Level)
    (out : List String) (h : findValidatorMembers vname levels = .ok out) :
    out = (levels.dropLast.map (fun lvl => (lvl.map Prod.fst).filter
      (fun k => okTrue (findMembersFilter vname k (resolveMember levels k))))).flatten :=
  findRec_ok _ levels out h

/-- Witness for C7 (amended) on the register validator's chain. -/
theorem member_discovery_concatenates_levels_witness :
    ["email", "nickname", "validatePassword"] =
      (regLevels.dropLast.map (fun lvl => (lvl.map Prod.fst).filter
        (fun k => okTrue (findMembersFilter "RegisterValidator" k
          (resolveMember regLevels k))))).flatten :=
  member_discovery_concatenates_levels "RegisterValidator" regLevels
    ["email", "nickname", "validatePassword"] rfl

/-- C8 (counterexample): a member named `validateFoo` holding a non-empty
array with a non-`Rule` element is kept by discovery without any authoring
error — the name-prefix test fires before the array check — and the whole
`validate()` call ends in the ordinary user-facing `ParameterException`,
not an authoring `Error`. -/
theorem authoring_error_bypassed_counterexample :
    findValidatorMembers "V" c8State.levels = .ok ["validateFoo"] ∧
    BaseValidator.validate emptyCatalog c8State =
      .ok (.paramError 10001 ["validateFoo：字段是必填参数"]) :=
  ⟨rfl, rfl⟩

/-- C8 (amended): for a declared member whose name does not match the
custom-check prefix pattern, a non-empty array value containing any
non-`Rule` element makes the discovery filter raise the authoring `Error`
(a thrown error distinct from the structured rejection) whose message names
the validator type and the offending field; an empty array member is
accepted as a rule set; and a discovery error aborts `validate()` as that
same raw error, before any field is checked. -/
theorem authoring_error_at_discovery (vname : String) :
    (∀ key elems, jsTestValidate key = false →
      (∃ e ∈ elems, e.isRule = false) →
      findMembersFilter vname key (some (.arr elems)) =
        .error (vname ++ "校验器中" ++ key ++ "字段的验证数组必须全部为Rule类型")) ∧
    (∀ key, findMembersFilter vname key (some (.arr [])) = .ok true) ∧
    (∀ cat st e, st.name = vname →
      findValidatorMembers st.name st.levels = .error e →
      BaseValidator.validate cat st = .error e) := by
  refine ⟨?_, ?_, ?_⟩
  · rintro key elems hk ⟨e, he, hr⟩
    have hall : elems.all ArrElem.isRule = false := by
      by_contra hcon
      rw [Bool.not_eq_false] at hcon
      exact absurd (List.all_eq_true.mp hcon e he) (by simp [hr])
    simp [findMembersFilter, hk, hall]
  · intro key
    by_cases hk : jsTestValidate key = true <;> simp [findMembersFilter, hk]
  · intro cat st e _ h
    simp [BaseValidator.validate, h, Bind.bind, Except.bind]

/-- Witness for C8 (amended): the `email` member declared as `[notRule]`. -/
theorem authoring_error_at_discovery_witness :
    findMembersFilter "V" "email" (some (.arr [.notRule])) =
      .error "V校验器中email字段的验证数组必须全部为Rule类型" ∧
    findMembersFilter "V" "like" (some (.arr [])) = .ok true ∧
    BaseValidator.validate emptyCatalog c8BadState =
      .error "V校验器中email字段的验证数组必须全部为Rule类型" := by
  refine ⟨?_, ?_, ?_⟩
  · exact (authoring_error_at_discovery "V").1 "email" [.notRule] rfl
      ⟨.notRule, by simp, rfl⟩
  · exact (authoring_error_at_discovery "V").2.1 "like"
  · exact (authoring_error_at_discovery "V").2.2 emptyCatalog c8BadState _ rfl rfl

/-- C10: when a field's value is falsy (or absent) in every source, the
parameter lookup behaves exactly as if the field were absent: it yields the
not-found result, the field validator treats it as an absent value
independently of the catalog (so the client-supplied falsy value is never
passed to any rule), failing as required without `isOptional` and resolving
to the declared (truthy) default with it. -/
theorem falsy_value_treated_as_absent (q b p h : List (String × Value)) (key : String)
    (hq : truthy (fieldVal q key) = false) (hb : truthy (fieldVal b key) = false)
    (hp : truthy (fieldVal p key) = false) (hh : truthy (fieldVal h key) = false) :
    findParam (mkBag q b p h) key = ⟨.vNull, []⟩ ∧
    (∀ cat cat' rules n f,
      RuleField.validate cat ⟨rules, n, f⟩ (findParam (mkBag q b p h) key).value =
        RuleField.validate cat' ⟨rules, n, f⟩ .vNull) ∧
    (∀ cat rules n f, RuleField.allowEmpty rules = false →
      RuleField.validate cat ⟨rules, n, f⟩ (findParam (mkBag q b p h) key).value =
        .ok ⟨false, ["字段是必填参数"], .vNull⟩) ∧
    (∀ cat rules n f, RuleField.allowEmpty rules = true →
      truthy (RuleField.hasDefault rules) = true →
      RuleField.validate cat ⟨rules, n, f⟩ (findParam (mkBag q b p h) key).value =
        .ok ⟨true, [], RuleField.hasDefault rules⟩) := by
  have hfp : findParam (mkBag q b p h) key = ⟨.vNull, []⟩ := by
    rw [findParam_mkBag]
    simp [hq, hb, hp, hh]
  refine ⟨hfp, ?_, ?_, ?_⟩
  · intro cat cat' rules n f
    rw [hfp]
    rfl
  · intro cat rules n f hne
    rw [hfp]
    exact ruleField_null_required cat rules n f hne
  · intro cat rules n f hopt hd
    rw [hfp]
    exact ruleField_null_default cat rules n f hopt hd

/-- Witness for C10: `count` is `0` in the query and `""` in the body. -/
theorem falsy_value_treated_as_absent_witness :
    findParam (mkBag [("count", .vInt 0)] [("count", .vStr "")] [] []) "count" =
      ⟨.vNull, []⟩ ∧
    RuleField.validate specCatalog
      ⟨[.rule ⟨"isInt", "", []⟩], "V", "count"⟩
      (findParam (mkBag [("count", .vInt 0)] [("count", .vStr "")] [] []) "count").value =
      .ok ⟨false, ["字段是必填参数"], .vNull⟩ := by
  have h := falsy_value_treated_as_absent [("count", .vInt 0)] [("count", .vStr "")]
    [] [] "count" (by decide) (by decide) (by decide) (by decide)
  exact ⟨h.1, h.2.2.1 specCatalog [.rule ⟨"isInt", "", []⟩] "V" "count" rfl⟩

/-- C4: a rule-set field's raw value is located by the first truthy match
across the four sources in the fixed order query, body, path, header (an
earlier truthy match shadows later sources), and on a passing check the
legal value is written back into `paramsChecked` at exactly the path it was
found at, or under `default.<fieldName>` when the lookup found nothing. -/
theorem findParam_precedence_and_writeback :
    (∀ q b p h key,
      findParam (mkBag q b p h) key =
        if truthy (fieldVal q key) then ⟨fieldVal q key, ["query", key]⟩
        else if truthy (fieldVal b key) then ⟨fieldVal b key, ["body", key]⟩
        else if truthy (fieldVal p key) then ⟨fieldVal p key, ["path", key]⟩
        else if truthy (fieldVal h key) then ⟨fieldVal h key, ["header", key]⟩
        else ⟨.vNull, []⟩) ∧
    (∀ cat st key elems res,
      resolveMember st.levels key = some (.arr elems) →
      RuleField.validate cat ⟨elems, st.name, key⟩ (findParam st.params key).value =
        .ok res →
      res.pass = true →
      BaseValidator.check cat st key = .ok ⟨true, "ok",
        jset st.paramsChecked
          (if (findParam st.params key).path.isEmpty then ["default", key]
           else (findParam st.params key).path) res.legalValue⟩) := by
  constructor
  · exact findParam_mkBag
  · intro cat st key elems res hm hv hp
    simp [BaseValidator.check, hm, hv, hp, Bind.bind, Except.bind]
    split <;> rfl

/-- Witness for C4: `age = "7"` found in the query and written back to
`query.age` as the coerced integer. -/
theorem findParam_precedence_and_writeback_witness :
    findParam c4Bag "age" = ⟨.vStr "7", ["query", "age"]⟩ ∧
    BaseValidator.check specCatalog c4State "age" =
      .ok ⟨true, "ok", jset c4State.paramsChecked ["query", "age"] (.vInt 7)⟩ := by
  constructor
  · exact findParam_precedence_and_writeback.1 [("age", .vStr "7")] [] [] [] "age"
  · exact findParam_precedence_and_writeback.2 specCatalog c4State "age"
      [.rule ⟨"isInt", "", []⟩] ⟨true, [], .vInt 7⟩ rfl (by rfl) rfl

theorem except_map_ok {ε α β : Type} (f : α → β) (e : Except ε α) (y : β)
    (h : e.map f = .ok y) : ∃ x, e = .ok x ∧ f x = y := by
  cases e with
  | error a => simp [Except.map] at h
  | ok x => exact ⟨x, rfl, by simpa [Except.map] using h⟩

theorem check_map_sm (cat : Catalog) (st : VState) (key : String) :
    (BaseValidator.check cat st key).map (fun o => (o.success, o.message)) =
      checkSM cat st.name st.levels st.params key := by
  cases hm : resolveMember st.levels key with
  | none => simp [BaseValidator.check, checkSM, hm, Except.map]
  | some m =>
    cases m with
    | func f =>
      cases hf : f st.params <;>
        simp [BaseValidator.check, checkSM, hm, hf, Except.map]
    | arr elems =>
      cases hr : RuleField.validate cat ⟨elems, st.name, key⟩
          (findParam st.params key).value with
      | error e =>
        simp [BaseValidator.check, checkSM, hm, hr, Except.map, Bind.bind,
          Except.bind]
      | ok res =>
        cases hp : res.pass <;>
          simp [BaseValidator.check, checkSM, hm, hr, hp, Except.map, Bind.bind,
            Except.bind]
    | other => simp [BaseValidator.check, checkSM, hm, Except.map]

theorem runChecks_spec (cat : Catalog) (keys : List String) :
    ∀ st : VState,
      (∀ k ∈ keys, isOkB (checkSM cat st.name st.levels st.params k) = true) →
      ∃ pc, runChecks cat st keys =
        .ok (collectFails cat st.name st.levels st.params keys, pc) := by
  induction keys with
  | nil =>
    intro st _
    exact ⟨st.paramsChecked, rfl⟩
  | cons k ks ih =>
    intro st h
    have hk := h k (by simp)
    cases hsm : checkSM cat st.name st.levels st.params k with
    | error e => rw [hsm] at hk; simp [isOkB] at hk
    | ok sm =>
      have hmap := check_map_sm cat st k
      rw [hsm] at hmap
      obtain ⟨out, hout, hproj⟩ := except_map_ok _ _ _ hmap
      have hst' : ∀ k' ∈ ks, isOkB (checkSM cat st.name st.levels st.params k') = true :=
        fun k' hk' => h k' (List.mem_cons_of_mem _ hk')
      obtain ⟨pc, hrun⟩ :=
        ih { st with paramsChecked := out.paramsChecked } (by simpa using hst')
      simp only at hrun
      refine ⟨pc, ?_⟩
      simp only [runChecks, Bind.bind, Except.bind, hout, hrun, Pure.pure,
        Except.pure, Except.ok.injEq]
      have hsm2 : sm = (out.success, out.message) := hproj.symm
      subst hsm2
      cases hsuc : out.success <;>
        simp [collectFails, List.filterMap_cons, hsm, hsuc]

/-- C1: `validate()` discovers the member keys, checks every one of them in
discovery order without stopping at the first failure and, when K members
fail, rejects with the single structured error carrying code 10001 and the
ordered list of exactly those K members' messages (each failing rule-set
field contributing one entry that joins that field's rule failure messages);
when no member fails it returns the validator instance itself. -/
theorem validate_aggregates_all_failures (cat : Catalog) (st : VState)
    (keys : List String)
    (hkeys : findValidatorMembers st.name st.levels = .ok keys)
    (hok : ∀ k ∈ keys, isOkB (checkSM cat st.name st.levels st.params k) = true) :
    (collectFails cat st.name st.levels st.params keys = [] →
      ∃ st2, BaseValidator.validate cat st = .ok (.ok st2)) ∧
    (collectFails cat st.name st.levels st.params keys ≠ [] →
      BaseValidator.validate cat st =
        .ok (.paramError 10001 (collectFails cat st.name st.levels st.params keys))) := by
  obtain ⟨pc, hrun⟩ :=
    runChecks_spec cat keys { st with memberKeys := keys } (by simpa using hok)
  simp only at hrun
  constructor
  · intro hnil
    refine ⟨{ st with memberKeys := keys, paramsChecked := pc }, ?_⟩
    simp [BaseValidator.validate, hkeys, Bind.bind, Except.bind, hrun, hnil,
      Pure.pure, Except.pure]
  · intro hne
    simp [BaseValidator.validate, hkeys, Bind.bind, Except.bind, hrun,
      Pure.pure, Except.pure, hne]

/-- Witness for C1: the register validator on a request with a bad email,
mismatching passwords and a valid nickname rejects with code 10001 and
exactly the two failing members' messages, in discovery order. -/
theorem validate_aggregates_all_failures_witness :
    BaseValidator.validate specCatalog regState =
      .ok (.paramError 10001 ["email：电子邮箱不符合规范", "两个密码不一致"]) := by
  have h := (validate_aggregates_all_failures specCatalog regState
    ["email", "nickname", "validatePassword"] rfl (by decide)).2 (by decide)
  exact h

theorem check_arr (cat : Catalog) (st : VState) (key : String)
    (elems : List ArrElem) (res : RuleFieldResult)
    (hm : resolveMember st.levels key = some (.arr elems))
    (hv : RuleField.validate cat ⟨elems, st.name, key⟩
      (findParam st.params key).value = .ok res) :
    BaseValidator.check cat st key = .ok
      (if res.pass then
        ⟨true, "ok", jset st.paramsChecked
          (if (findParam st.params key).path.isEmpty then ["default", key]
           else (findParam st.params key).path) res.legalValue⟩
      else ⟨false, key ++ "：" ++ joinMsgs res.message, st.paramsChecked⟩) := by
  cases hp : res.pass
  · simp [BaseValidator.check, hm, hv, hp, Bind.bind, Except.bind]
  · simp [BaseValidator.check, hm, hv, hp, Bind.bind, Except.bind]
    split <;> rfl

/-- C5: `get(path, true)` resolves the dotted path in `paramsChecked`,
falling back to `paramsChecked.default.<last segment>` whenever that lookup
is falsy or absent, while `get(path, false)` reads the raw `params` with no
fallback; consequently, after a successful `validate()`, `get` on a field
that was absent and defaulted returns the declared default, and `get` on a
field that was present and valid returns the validated (coerced) value, not
the raw one. -/
theorem get_fallback_semantics :
    (∀ st path,
      BaseValidator.get st path false = jget st.params (splitDots path) ∧
      BaseValidator.get st path true =
        (if jtruthyOpt (jget st.paramsChecked (splitDots path)) then
          jget st.paramsChecked (splitDots path)
        else jget st.paramsChecked ["default", (splitDots path).getLastD ""])) ∧
    (∀ cat d, truthy d = true →
      ∃ st2, BaseValidator.validate cat (ageState d emptyBag) = .ok (.ok st2) ∧
        BaseValidator.get st2 "age" true = some (.leaf d)) ∧
    (∀ cat d v, truthy v = true →
      cat "isInt" (jsToString v) [] = some true →
      truthy (jsParseInt v) = true →
      ∃ st2, BaseValidator.validate cat (ageState d (agePresentBag v)) =
          .ok (.ok st2) ∧
        BaseValidator.get st2 "query.age" true = some (.leaf (jsParseInt v)) ∧
        (jsParseInt v ≠ v →
          BaseValidator.get st2 "query.age" true ≠ some (.leaf v))) := by
  refine ⟨fun st path => ⟨rfl, rfl⟩, ?_, ?_⟩
  · intro cat d hd
    have hfield : RuleField.validate cat ⟨ageRules d, "AgeValidator", "age"⟩
        .vNull = .ok ⟨true, [], d⟩ :=
      ruleField_null_default cat (ageRules d) "AgeValidator" "age" rfl hd
    have hcheck : BaseValidator.check cat
        ⟨"AgeValidator", ageLevels d, emptyBag, emptyBag, ["age"]⟩ "age" =
        .ok ⟨true, "ok", agePC d⟩ :=
      check_arr cat ⟨"AgeValidator", ageLevels d, emptyBag, emptyBag, ["age"]⟩
        "age" (ageRules d) ⟨true, [], d⟩ rfl hfield
    have hrun : runChecks cat
        ⟨"AgeValidator", ageLevels d, emptyBag, emptyBag, ["age"]⟩ ["age"] =
        .ok ([], agePC d) := by
      simp [runChecks, hcheck, Bind.bind, Except.bind, Pure.pure, Except.pure]
    refine ⟨⟨"AgeValidator", ageLevels d, emptyBag, agePC d, ["age"]⟩, ?_, rfl⟩
    have hkeys : findValidatorMembers "AgeValidator" (ageLevels d) = .ok ["age"] :=
      rfl
    simp only [BaseValidator.validate, ageState, Bind.bind, Except.bind, hkeys]
    rw [hrun]
    rfl
  · intro cat d v hv hcat hpi
    have hvn : ¬ v = .vNull := by
      intro h
      rw [h] at hv
      simp [truthy] at hv
    have hfp : findParam (agePresentBag v) "age" = ⟨v, ["query", "age"]⟩ := by
      simp [agePresentBag, findParam_mkBag, fieldVal, hv]
    have hpass : RuleField.collectMessages cat (ageRules d) v = .ok [] := by
      simp [ageRules, RuleField.collectMessages, ArrElem.validateE, Rule.validate,
        hcat, Bind.bind, Except.bind, Pure.pure, Except.pure]
    have hfield : RuleField.validate cat ⟨ageRules d, "AgeValidator", "age"⟩ v =
        .ok ⟨true, [], jsParseInt v⟩ := by
      simp [RuleField.validate, hvn, hpass, Bind.bind, Except.bind, Pure.pure,
        Except.pure]
      rfl
    have hv2 : RuleField.validate cat ⟨ageRules d, "AgeValidator", "age"⟩
        (findParam (agePresentBag v) "age").value = .ok ⟨true, [], jsParseInt v⟩ := by
      rw [hfp]
      exact hfield
    have hcheck : BaseValidator.check cat
        ⟨"AgeValidator", ageLevels d, agePresentBag v, agePresentBag v, ["age"]⟩
        "age" = .ok ⟨true, "ok", agePresentPC v⟩ := by
      have h := check_arr cat
        ⟨"AgeValidator", ageLevels d, agePresentBag v, agePresentBag v, ["age"]⟩
        "age" (ageRules d) ⟨true, [], jsParseInt v⟩ rfl hv2
      rw [hfp] at h
      exact h
    have hrun : runChecks cat
        ⟨"AgeValidator", ageLevels d, agePresentBag v, agePresentBag v, ["age"]⟩
        ["age"] = .ok ([], agePresentPC v) := by
      simp [runChecks, hcheck, Bind.bind, Except.bind, Pure.pure, Except.pure]
    have hget : BaseValidator.get
        ⟨"AgeValidator", ageLevels d, agePresentBag v, agePresentPC v, ["age"]⟩
        "query.age" true = some (.leaf (jsParseInt v)) := by
      have hj : jget (agePresentPC v) (splitDots "query.age") =
          some (.leaf (jsParseInt v)) := by rfl
      simp [BaseValidator.get, hj, jtruthyOpt, hpi]
    refine ⟨⟨"AgeValidator", ageLevels d, agePresentBag v, agePresentPC v, ["age"]⟩,
      ?_, hget, ?_⟩
    · have hkeys : findValidatorMembers "AgeValidator" (ageLevels d) = .ok ["age"] :=
        rfl
      simp only [BaseValidator.validate, ageState, Bind.bind, Except.bind, hkeys]
      rw [hrun]
      rfl
    · intro hne hcontra
      rw [hget] at hcontra
      simp only [Option.some.injEq, JTree.leaf.injEq] at hcontra
      exact hne hcontra

/-- Witness for C5: the `age` validator with default `18`, once on an empty
request (the default is resolved) and once on `age = "20"` in the query (the
coerced integer, not the raw string, is resolved). -/
theorem get_fallback_semantics_witness :
    (∃ st2, BaseValidator.validate specCatalog (ageState (.vInt 18) emptyBag) =
        .ok (.ok st2) ∧
      BaseValidator.get st2 "age" true = some (.leaf (.vInt 18))) ∧
    (∃ st2, BaseValidator.validate specCatalog
        (ageState (.vInt 18) (agePresentBag (.vStr "20"))) = .ok (.ok st2) ∧
      BaseValidator.get st2 "query.age" true =
        some (.leaf (jsParseInt (.vStr "20"))) ∧
      (jsParseInt (.vStr "20") ≠ .vStr "20" →
        BaseValidator.get st2 "query.age" true ≠ some (.leaf (.vStr "20")))) := by
  constructor
  · exact get_fallback_semantics.2.1 specCatalog (.vInt 18) (by decide)
  · exact get_fallback_semantics.2.2 specCatalog (.vInt 18) (.vStr "20")
      (by decide) (by rfl) (by decide)

end KoaValidator

